import Mathlib

/-!
Verification of the NYC 311 service-request pipeline
(`ingest_311.py`, `process_311.py`, `scripts/precompute_summaries.py`).

Shallow embedding conventions:
* timestamps are integers, seconds since the Unix epoch; a missing (NaT/NULL)
  value is `none`;
* `response_hours` is a rational (`total_seconds()/3600.0` is exact on integral
  second inputs);
* pandas boolean columns obtained from `.le` are non-nullable, so the embedded
  `within_sla` column has type `Option Bool` (the type a nullable pandas column
  could take) and the code always produces `some _`;
* the DataFrame column set is modelled separately from row contents, because
  pandas columns are dynamic while Lean structures are not.
-/

namespace NYC311

/-! ### Gregorian calendar arithmetic

These model the timestamp handling done by pandas/pytz. `civilFromDays` and
`daysFromCivil` are the standard civil-calendar conversions on days since
1970-01-01. -/

/-- Convert days since 1970-01-01 to a civil (year, month, day) triple. -/
def civilFromDays (z : Int) : Int × Nat × Nat :=
  let z := z + 719468
  let era : Int := z.fdiv 146097
  let doe : Nat := (z.fmod 146097).toNat
  let yoe : Nat := (doe - doe / 1460 + doe / 36524 - doe / 146096) / 365
  let y : Int := era * 400 + yoe
  let doy : Nat := doe - (365 * yoe + yoe / 4 - yoe / 100)
  let mp : Nat := (5 * doy + 2) / 153
  let d : Nat := doy - (153 * mp + 2) / 5 + 1
  let m : Nat := if mp < 10 then mp + 3 else mp - 9
  (if m ≤ 2 then y + 1 else y, m, d)

/-- Convert a civil (year, month, day) date to days since 1970-01-01. -/
def daysFromCivil (y : Int) (m d : Nat) : Int :=
  let y' : Int := if m ≤ 2 then y - 1 else y
  let era : Int := y'.fdiv 400
  let yoe : Nat := (y'.fmod 400).toNat
  let mp : Nat := if 2 < m then m - 3 else m + 9
  let doy : Nat := (153 * mp + 2) / 5 + d - 1
  let doe : Nat := yoe * 365 + yoe / 4 - yoe / 100 + doy
  era * 146097 + (doe : Int) - 719468

/-- Weekday of a day count, pandas convention: 0 = Monday .. 6 = Sunday
(1970-01-01 was a Thursday, index 3). -/
def weekdayMon (z : Int) : Nat := ((z + 3).fmod 7).toNat

/-- English day names in pandas `day_name()` order (index 0 = Monday). -/
def dayNameOf (w : Nat) : String :=
  (["Monday", "Tuesday", "Wednesday", "Thursday", "Friday", "Saturday",
    "Sunday"]).getD w ""

/-- English month names, `monthNameOf 1 = "January"`. -/
def monthNameOf (m : Nat) : String :=
  (["January", "February", "March", "April", "May", "June", "July", "August",
    "September", "October", "November", "December"]).getD (m - 1) ""

/-! ### America/New_York timezone conversion

`process_311.py` converts the creation timestamp to `America/New_York` with
pytz. We model the post-2007 United States DST rule that pytz applies to
modern dates: daylight saving is in effect from the second Sunday of March at
02:00 EST (07:00 UTC) until the first Sunday of November at 02:00 EDT
(06:00 UTC); the offset is UTC−4 inside that window and UTC−5 outside it. -/

/-- Day count of the second Sunday of March of year `y`. -/
def secondSundayOfMarch (y : Int) : Int :=
  let d1 := daysFromCivil y 3 1
  d1 + ((6 - weekdayMon d1 : Nat) : Int) + 7

/-- Day count of the first Sunday of November of year `y`. -/
def firstSundayOfNovember (y : Int) : Int :=
  let d1 := daysFromCivil y 11 1
  d1 + ((6 - weekdayMon d1 : Nat) : Int)

/-- UTC offset of America/New_York, in seconds, at UTC instant `t`
(seconds since the epoch). -/
def nyOffsetSeconds (t : Int) : Int :=
  let y := (civilFromDays (t.fdiv 86400)).1
  let dstStart := secondSundayOfMarch y * 86400 + 7 * 3600
  let dstEnd := firstSundayOfNovember y * 86400 + 6 * 3600
  if dstStart ≤ t ∧ t < dstEnd then -(4 * 3600) else -(5 * 3600)

/-- Wall-clock seconds in America/New_York of the UTC instant `t`. -/
def utcToNewYork (t : Int) : Int := t + nyOffsetSeconds t

/-! ### Raw and clean rows (`process_311.py`) -/

/-- One raw 311 record, restricted to the fields the verified claims touch.
The remaining SELECT columns (agency, status, coordinates, ...) are carried
through `engineer` unchanged and are tracked only at the column-set level. -/
structure RawRow where
  unique_key : String
  created_date : Option Int
  closed_date : Option Int
  resolution_action_updated_date : Option Int
deriving Repr, DecidableEq

/-- Default SLA threshold: `SLA_HOURS = float(os.getenv("SLA_HOURS", "24"))`. -/
def SLA_HOURS_default : ℚ := 24

/-- pandas `Series.le`: comparison of a float column against a scalar yields a
non-nullable boolean column in which a NaN entry compares as `False`. The
result is therefore always `some _`; `none` (a null cell) is never produced. -/
def pdLe (x : Option ℚ) (s : ℚ) : Option Bool :=
  some (match x with
    | none => false
    | some v => decide (v ≤ s))

/-- Computation of `response_end = df["closed_date"].fillna(df["resolution_action_updated_date"])`:
the closure timestamp when present, else the last-update timestamp. -/
def responseEnd (x : RawRow) : Option Int :=
  match x.closed_date with
  | some c => some c
  | none => x.resolution_action_updated_date

/-- Value of `response_hours` of a raw row given its creation timestamp `c`:
`(response_end - created_date).dt.total_seconds()/3600.0`, set to NaN where
`response_end` is null. No clamping is applied. -/
def responseHoursOf (c : Int) (x : RawRow) : Option ℚ :=
  (responseEnd x).map (fun e => ((e - c : Int) : ℚ) / 3600)

/-- One clean row as produced by `engineer`. -/
structure CleanRow where
  unique_key : String
  created_local : Int
  date : Int × Nat × Nat
  hour : Nat
  day_of_week : Nat
  dow_name : String
  month : Nat
  month_name : String
  is_holiday : Bool
  response_hours : Option ℚ
  within_sla : Option Bool
deriving Repr, DecidableEq

/-- The creation-timestamp branch of `engineer`: a timezone-naive column is
localized as UTC and then converted to America/New_York; a timezone-aware
column (already denoting a UTC instant `t`) is converted directly. Both
branches land on the New York wall clock of the UTC instant `t`. -/
def localizeCreated (tzAware : Bool) (t : Int) : Int :=
  if tzAware then utcToNewYork t else utcToNewYork t

/-- Rowwise core of `engineer` (every derived column is computed rowwise by
the vectorized pandas operations). `c := x.created_date.getD 0` is only ever
used on rows that survived the null-creation filter. -/
def cleanOfRaw (sla : ℚ) (tzAware holidaysAvailable : Bool)
    (nyHolidays : List (Int × Nat × Nat)) (x : RawRow) : CleanRow :=
  let c := x.created_date.getD 0
  let rh := responseHoursOf c x
  let loc := localizeCreated tzAware c
  let days := loc.fdiv 86400
  let secs := (loc.fmod 86400).toNat
  let d := civilFromDays days
  { unique_key := x.unique_key
    created_local := loc
    date := d
    hour := secs / 3600
    day_of_week := weekdayMon days
    dow_name := dayNameOf (weekdayMon days)
    month := d.2.1
    month_name := monthNameOf d.2.1
    is_holiday := if holidaysAvailable then decide (d ∈ nyHolidays) else false
    response_hours := rh
    within_sla := pdLe rh sla }

/-- Transform `engineer`: drop rows with a null `created_date`, then derive the
response-time, SLA and calendar columns (`process_311.py`). -/
def engineer (sla : ℚ) (tzAware holidaysAvailable : Bool)
    (nyHolidays : List (Int × Nat × Nat)) (df : List RawRow) : List CleanRow :=
  (df.filter (fun x => x.created_date.isSome)).map
    (cleanOfRaw sla tzAware holidaysAvailable nyHolidays)

/-! ### Schema validation and publish (`process_311.py`, `main`) -/

/-- The `keep` projection list of `engineer`. -/
def keepList : List String :=
  ["unique_key", "created_dt", "date", "hour", "day_of_week", "dow_name",
   "month", "month_name", "is_holiday", "borough", "complaint_type",
   "descriptor", "agency", "status", "open_data_channel_type",
   "response_hours", "within_sla", "latitude", "longitude", "incident_zip",
   "city"]

/-- Columns that `engineer` always adds to the frame before projecting. -/
def engineeredCols : List String :=
  ["response_hours", "within_sla", "created_dt", "date", "hour",
   "day_of_week", "dow_name", "month", "month_name", "is_holiday"]

/-- Column set of the clean frame: `keep = [c for c in keep if c in df.columns]`,
where the frame holds the raw columns plus the engineered ones. -/
def cleanCols (rawCols : List String) : List String :=
  keepList.filter (fun c => rawCols.contains c || engineeredCols.contains c)

/-- The `expected` column set of the schema guard in `main`. -/
def expectedCols : List String :=
  ["unique_key", "created_dt", "borough", "complaint_type", "descriptor",
   "response_hours", "within_sla", "hour", "dow_name", "month_name"]

/-- A clean frame: its (dynamic) column list and its rows. -/
structure CleanTable where
  cols : List String
  rows : List CleanRow

/-- Observable write effects of `main` after validation. -/
inductive PublishEvent where
  | writeClean
  | writePartitioned
deriving Repr, DecidableEq

/-- Computation of `missing = expected - set(clean.columns)`. -/
def missingCols (t : CleanTable) : List String :=
  expectedCols.filter (fun c => !(t.cols.contains c))

/-- Check `clean["unique_key"].is_unique`. -/
def keysUnique (t : CleanTable) : Bool :=
  decide (t.rows.map (fun r => r.unique_key)).Nodup

/-- Check `clean["response_hours"].dropna().ge(0).all()`. -/
def respNonneg (t : CleanTable) : Bool :=
  t.rows.all (fun r =>
    match r.response_hours with
    | none => true
    | some v => decide (0 ≤ v))

/-- The validation-and-publish tail of `main`: the three assertions run in
source order; the clean parquet is written only after all of them pass, and
the partitioned write is attempted afterwards inside a try/except, so its
absence (`pyarrowAvailable = false`) never fails the run. Returns the list of
performed writes and `some message` when an assertion fired. -/
def mainPublish (t : CleanTable) (pyarrowAvailable : Bool) :
    List PublishEvent × Option String :=
  if missingCols t ≠ [] then ([], some "Missing columns")
  else if ¬ keysUnique t then ([], some "unique_key has duplicates")
  else if ¬ respNonneg t then ([], some "negative response_hours found")
  else (.writeClean :: (if pyarrowAvailable then [.writePartitioned] else []),
    none)

/-! ### Precomputed SLA aggregates (`scripts/precompute_summaries.py`)

The daily summary computes `avg(CASE WHEN response_hours <= sla THEN 1 ELSE 0
END)` and the day-of-week/hour summary computes `avg(CASE WHEN response_hours
> sla THEN 1 ELSE 0 END)`. In SQL, a comparison against NULL is NULL, which is
not true, so a NULL `response_hours` falls into the ELSE branch of either
CASE and contributes 0 to the numerator while `avg` still counts the row. -/

/-- Value of `CASE WHEN response_hours <= sla THEN 1 ELSE 0 END` on one row. -/
def sqlWithinInd (sla : ℚ) (r : Option ℚ) : ℚ :=
  match r with
  | some v => if v ≤ sla then 1 else 0
  | none => 0

/-- Value of `CASE WHEN response_hours > sla THEN 1 ELSE 0 END` on one row. -/
def sqlBreachInd (sla : ℚ) (r : Option ℚ) : ℚ :=
  match r with
  | some v => if sla < v then 1 else 0
  | none => 0

/-- Aggregate `pct_within` of one GROUP BY group whose rows carry `rs` response hours. -/
def pct_within (sla : ℚ) (rs : List (Option ℚ)) : ℚ :=
  (rs.map (sqlWithinInd sla)).sum / (rs.length : ℚ)

/-- Aggregate `breach_rate` of one group in the day-of-week/hour summary. -/
def breach_rate (sla : ℚ) (rs : List (Option ℚ)) : ℚ :=
  (rs.map (sqlBreachInd sla)).sum / (rs.length : ℚ)

/-- Breach count a daily-summary row contributes to the complaint-type
summary: `tickets * (1.0 - pct_within)`. -/
def ctBreaches (tickets pctw : ℚ) : ℚ := tickets * (1 - pctw)

/-- Aggregate `breach_rate` of the complaint-type summary for a group of daily rows,
each given as (tickets, pct_within): `sum(breaches) / sum(tickets)`. -/
def ctBreachRate (groups : List (ℚ × ℚ)) : ℚ :=
  (groups.map (fun g => ctBreaches g.1 g.2)).sum / (groups.map Prod.fst).sum

/-- Modelled from the spec: the SLA-within rate that excludes null
`response_hours` rows from the denominator, as the spec's exclusion sentence
demands. Used only to compare against the aggregates the code computes. -/
def pct_within_excludingNull (sla : ℚ) (rs : List (Option ℚ)) : ℚ :=
  pct_within sla (rs.filter Option.isSome)

/-- Modelled from the spec: the breach rate over eligible rows only. -/
def breach_rate_excludingNull (sla : ℚ) (rs : List (Option ℚ)) : ℚ :=
  breach_rate sla (rs.filter Option.isSome)

/-! ### Retry with backoff (`ingest_311.py`, `get_with_retry`) -/

/-- One backoff update: `backoff = min(backoff * 2, 30)`. -/
def backoffNext (b : Nat) : Nat := min (b * 2) 30

/-- Trace of one `get_with_retry` run: the final outcome (`none` when the
`for` loop body never ran, i.e. `max_retries = 0`, in which case Python
returns `None`), the number of warning log lines, the sleeps performed, and
the number of attempts made. -/
structure RetryTrace (α : Type) where
  outcome : Option (Except String α)
  warnings : Nat
  sleeps : List Nat
  attempts : Nat

/-- The `for attempt in range(1, max_retries + 1)` loop of `get_with_retry`,
with `remaining` iterations left, the current attempt number and current
backoff. On an exception: log a warning; re-raise when this was the last
attempt; otherwise sleep `backoff` and double it (capped at 30). -/
def retryGo {α : Type} (stub : Nat → Except String α)
    (attempt remaining backoff : Nat) : RetryTrace α :=
  match remaining with
  | 0 => ⟨none, 0, [], 0⟩
  | remaining' + 1 =>
    match stub attempt with
    | .ok r => ⟨some (.ok r), 0, [], 1⟩
    | .error e =>
      if remaining' = 0 then ⟨some (.error e), 1, [], 1⟩
      else
        let rest := retryGo stub (attempt + 1) remaining' (backoffNext backoff)
        ⟨rest.outcome, rest.warnings + 1, backoff :: rest.sleeps,
          rest.attempts + 1⟩

/-- Function `get_with_retry` with the network call abstracted as `stub`, which maps
the attempt number to its result. -/
def get_with_retry {α : Type} (stub : Nat → Except String α)
    (max_retries : Nat) : RetryTrace α :=
  retryGo stub 1 max_retries 1

/-- The backoff schedule the code sleeps through after `n` early failures:
1, 2, 4, ... doubling from 1 and capped at 30. -/
def backoffSchedule (n : Nat) : List Nat :=
  (List.range n).map (fun j => min (2 ^ j) 30)

/-! ### Paginated ingestion loop (`ingest_311.py`, `main`)

The remote API is modelled as consistent for the fixed filter and ordering:
a request with limit `l` at offset `o` against `T` matching rows returns
`min l (T - o)` rows. `L` is `args.limit`; Python truthiness makes
`--limit 0` behave like no limit. -/

/-- Python truthiness of `args.limit`. -/
def limTruthy : Option Int → Bool
  | none => false
  | some n => n != 0

/-- The integer value of `args.limit` where the code reads it (only ever
read under a truthiness guard). -/
def limVal : Option Int → Int
  | none => 0
  | some n => n

/-- Value `this_limit` for the next page: `page_size`, shrunk to the remaining
quota when a (truthy) limit is set. -/
def thisLimitFn (P : Nat) (L : Option Int) (written : Nat) : Nat :=
  if limTruthy L then min P (limVal L - (written : Int)).toNat else P

/-- The `while True` pagination loop: remaining-quota break, fetch, empty-page
break, short-page break, limit-reached break, then advance the offset by
`this_limit`. Returns the total rows written and the per-page row counts. -/
def ingestLoop (T P : Nat) (L : Option Int) (offset written : Nat)
    (pages : List Nat) : Nat × List Nat :=
  if limTruthy L = true ∧ limVal L - (written : Int) ≤ 0 then (written, pages)
  else if h2 : min (thisLimitFn P L written) (T - offset) = 0 then
    (written, pages)
  else if h3 : min (thisLimitFn P L written) (T - offset) <
      thisLimitFn P L written then
    (written + min (thisLimitFn P L written) (T - offset),
      pages ++ [min (thisLimitFn P L written) (T - offset)])
  else if limTruthy L = true ∧
      limVal L ≤ ((written + thisLimitFn P L written : Nat) : Int) then
    (written + thisLimitFn P L written, pages ++ [thisLimitFn P L written])
  else
    ingestLoop T P L (offset + thisLimitFn P L written)
      (written + thisLimitFn P L written) (pages ++ [thisLimitFn P L written])
termination_by T - offset
decreasing_by
  have hmin : min (thisLimitFn P L written) (T - offset) =
      thisLimitFn P L written :=
    le_antisymm (min_le_left _ _) (Nat.not_lt.mp h3)
  have hle : thisLimitFn P L written ≤ T - offset :=
    hmin ▸ min_le_right _ _
  have hpos : thisLimitFn P L written ≠ 0 := fun h => h2 (by simp [hmin, h])
  omega

/-- Result of one `main` ingestion run. -/
structure IngestResult where
  countQueried : Bool
  written : Nat
  pages : List Nat
deriving Repr, DecidableEq

/-- The ingestion `main` after date-range resolution: issue the count query
only when no truthy limit is given, then run the pagination loop from offset
0 with nothing written. -/
def mainIngest (T P : Nat) (L : Option Int) : IngestResult :=
  let r := ingestLoop T P L 0 0 []
  { countQueried := !(limTruthy L), written := r.1, pages := r.2 }

/-- Schedule `schedFrom b n`: the `n` sleeps performed starting from current backoff
`b`, each followed by the `min (2*b) 30` update. -/
def schedFrom (b : Nat) : Nat → List Nat
  | 0 => []
  | n + 1 => b :: schedFrom (backoffNext b) n

/-- Total row count the ingestion loop is expected to write:
all `T` matching rows, capped by a (positive) limit when one is set. -/
def expectedTotal (T : Nat) (L : Option Int) : Nat :=
  match L with
  | none => T
  | some n => min T n.toNat

/-! ### Optional holidays dependency (`process_311.py`, module import) -/

/-- The `try: from holidays import US / except` block at import time:
on failure, `_HOLIDAYS_AVAILABLE = False` and exactly one warning is issued.
Returns (availability flag, number of warnings emitted). -/
def importHolidaysModule (importOk : Bool) : Bool × Nat :=
  if importOk then (true, 0) else (false, 1)

/-! ### Eligibility predicates and formalizations of spec claims as stated -/

/-- A row is counted on the success side of `pct_within`: non-null response
within the SLA. -/
def eligWithin (sla : ℚ) (r : Option ℚ) : Bool :=
  match r with
  | some v => decide (v ≤ sla)
  | none => false

/-- A row is counted on the breach side of `breach_rate`: non-null response
exceeding the SLA. -/
def eligBreach (sla : ℚ) (r : Option ℚ) : Bool :=
  match r with
  | some v => decide (sla < v)
  | none => false

/-- Claim C1 as stated by the spec: `within_sla` is true iff
`response_hours` is non-null and at most `sla`, and a null `response_hours`
yields a null `within_sla` (never coerced to false). -/
def claimC1_stated : Prop :=
  ∀ (sla : ℚ) (tzAware hav : Bool) (hol : List (Int × Nat × Nat))
    (df : List RawRow) (r : CleanRow), r ∈ engineer sla tzAware hav hol df →
    ((r.within_sla = some true ↔
        ∃ v, r.response_hours = some v ∧ v ≤ sla) ∧
      (r.response_hours = none → r.within_sla = none))

/-- Claim C2 as stated by the spec: null-response rows are excluded from the
denominator of the SLA-rate aggregates, i.e. each aggregate coincides with
the same aggregate computed over the eligible (non-null) rows only. -/
def claimC2_stated : Prop :=
  ∀ (sla : ℚ) (rs : List (Option ℚ)),
    pct_within sla rs = pct_within_excludingNull sla rs ∧
    breach_rate sla rs = breach_rate_excludingNull sla rs

/-- Claim C3 as stated by the spec: for every set of rows, the within rate
and the breach rate are exact complements. -/
def claimC3_stated : Prop :=
  ∀ (sla : ℚ) (rs : List (Option ℚ)),
    pct_within sla rs + breach_rate sla rs = 1

/-! ## Theorems -/

lemma sum_withinInd_eq_countP (sla : ℚ) (rs : List (Option ℚ)) :
    (rs.map (sqlWithinInd sla)).sum = (rs.countP (eligWithin sla) : ℚ) := by
  induction rs with
  | nil => simp
  | cons a t ih =>
    cases a with
    | none => simp [sqlWithinInd, eligWithin, List.countP_cons, ih]
    | some v =>
      by_cases h : v ≤ sla <;>
        simp [sqlWithinInd, eligWithin, List.countP_cons, ih, h] <;>
        push_cast <;> ring

lemma sum_breachInd_eq_countP (sla : ℚ) (rs : List (Option ℚ)) :
    (rs.map (sqlBreachInd sla)).sum = (rs.countP (eligBreach sla) : ℚ) := by
  induction rs with
  | nil => simp
  | cons a t ih =>
    cases a with
    | none => simp [sqlBreachInd, eligBreach, List.countP_cons, ih]
    | some v =>
      by_cases h : sla < v <;>
        simp [sqlBreachInd, eligBreach, List.countP_cons, ih, h] <;>
        push_cast <;> ring

lemma countP_not_eligWithin (sla : ℚ) (rs : List (Option ℚ)) :
    (rs.countP (fun r => !(eligWithin sla r))) =
      rs.length - rs.countP (eligWithin sla) := by
  induction rs with
  | nil => simp
  | cons a t ih =>
    have hle := List.countP_le_length (p := eligWithin sla) (l := t)
    by_cases h : eligWithin sla a <;>
      simp [List.countP_cons, h, ih] <;> omega

/-- C2 (counterexample): in the group with response hours NULL and 0 and
`sla = 24`, the daily summary computes `pct_within = 1/2` while the rate over
eligible rows only is `1`; the NULL row sits in the denominator. -/
theorem C2_counterexample : ¬ claimC2_stated := by
  intro h
  have h1 := (h 24 [none, some 0]).1
  have e1 : pct_within 24 [none, some 0] = 1 / 2 := by
    norm_num [pct_within, sqlWithinInd]
  have e2 : pct_within_excludingNull 24 [none, some 0] = 1 := by
    norm_num [pct_within_excludingNull, pct_within, sqlWithinInd, List.filter]
  rw [e1, e2] at h1
  norm_num at h1

/-- C2 (amended): in every precomputed SLA-rate aggregate, NULL-response rows
are included in the denominator, which is the full group row count. In
`pct_within` (daily summary) they are counted on the failure side, in the
day-of-week/hour `breach_rate` they are counted on the success (non-breach)
side, and in the complaint-type summary derived via
`tickets * (1 - pct_within)` they are counted as breaches. -/
theorem C2_null_rows_in_denominator (sla : ℚ) (rs : List (Option ℚ))
    (hne : rs ≠ []) :
    pct_within sla rs = (rs.countP (eligWithin sla) : ℚ) / (rs.length : ℚ) ∧
    breach_rate sla rs = (rs.countP (eligBreach sla) : ℚ) / (rs.length : ℚ) ∧
    ctBreachRate [((rs.length : ℚ), pct_within sla rs)] =
      (rs.countP (fun r => !(eligWithin sla r)) : ℚ) / (rs.length : ℚ) := by
  have hlen : (rs.length : ℚ) ≠ 0 := by
    have : rs.length ≠ 0 := fun h => hne (List.length_eq_zero.mp h)
    exact_mod_cast this
  refine ⟨?_, ?_, ?_⟩
  · rw [pct_within, sum_withinInd_eq_countP]
  · rw [breach_rate, sum_breachInd_eq_countP]
  · have hcw := List.countP_le_length (p := eligWithin sla) (l := rs)
    rw [countP_not_eligWithin, Nat.cast_sub hcw, ctBreachRate]
    simp only [List.map_cons, List.map_nil, List.sum_cons, List.sum_nil]
    rw [ctBreaches, pct_within, sum_withinInd_eq_countP]
    field_simp

lemma sum_within_add_sum_breach (sla : ℚ) (rs : List (Option ℚ))
    (hall : ∀ r ∈ rs, r.isSome) :
    (rs.map (sqlWithinInd sla)).sum + (rs.map (sqlBreachInd sla)).sum =
      (rs.length : ℚ) := by
  induction rs with
  | nil => simp
  | cons a t ih =>
    obtain ⟨v, rfl⟩ := Option.isSome_iff_exists.mp (hall a (by simp))
    have ht := ih (fun r hr => hall r (List.mem_cons_of_mem _ hr))
    rcases le_or_lt v sla with h | h
    · simp only [List.map_cons, List.sum_cons, sqlWithinInd, sqlBreachInd,
        if_pos h, if_neg (not_lt.mpr h), List.length_cons]
      push_cast
      linarith
    · simp only [List.map_cons, List.sum_cons, sqlWithinInd, sqlBreachInd,
        if_neg (not_le.mpr h), if_pos h, List.length_cons]
      push_cast
      linarith

/-- C3 (counterexample): on a group consisting of a single NULL-response row,
`pct_within = 0` and `breach_rate = 0`, so the two rates sum to 0, not 1. -/
theorem C3_counterexample : ¬ claimC3_stated := by
  intro h
  have h1 := h 24 [none]
  norm_num [pct_within, breach_rate, sqlWithinInd, sqlBreachInd] at h1

/-- C3 (amended): over any nonempty set of rows all of whose response hours
are non-null, the within rate (`response_hours <= sla`) and the breach rate
(`response_hours > sla`) are exact complements, with no off-by-one at the
boundary: a row at exactly `sla` counts as within (indicator 1), not as a
breach (indicator 0), and `process_311.py`'s within flag agrees there. -/
theorem C3_rates_complement (sla : ℚ) (rs : List (Option ℚ))
    (hne : rs ≠ []) (hall : ∀ r ∈ rs, r.isSome) :
    pct_within sla rs + breach_rate sla rs = 1 ∧
    sqlWithinInd sla (some sla) = 1 ∧
    sqlBreachInd sla (some sla) = 0 ∧
    pdLe (some sla) sla = some true := by
  have hlen : (rs.length : ℚ) ≠ 0 := by
    have : rs.length ≠ 0 := fun h => hne (List.length_eq_zero.mp h)
    exact_mod_cast this
  refine ⟨?_, by simp [sqlWithinInd], by simp [sqlBreachInd], by simp [pdLe]⟩
  rw [pct_within, breach_rate, div_add_div_same,
    sum_within_add_sum_breach sla rs hall, div_self hlen]

/-- C3 (witness): on the boundary-containing group with response hours 24 and
30 at `sla = 24`, the two rates sum to exactly 1. -/
theorem C3_witness :
    pct_within 24 [some 24, some 30] + breach_rate 24 [some 24, some 30]
      = 1 :=
  (C3_rates_complement 24 [some 24, some 30] (by simp)
    (by intro r hr; simp at hr; rcases hr with h | h <;> simp [h])).1

/-- C2 (witness): on the group with response hours NULL, 0 and 30 at
`sla = 24`, all three aggregate formulas take the stated included-denominator
form. -/
theorem C2_witness :
    pct_within 24 [none, some 0, some 30] =
      (([none, some 0, some 30] : List (Option ℚ)).countP (eligWithin 24) : ℚ)
        / 3 ∧
    breach_rate 24 [none, some 0, some 30] =
      (([none, some 0, some 30] : List (Option ℚ)).countP (eligBreach 24) : ℚ)
        / 3 := by
  have h := C2_null_rows_in_denominator 24 [none, some 0, some 30] (by simp)
  exact ⟨h.1, h.2.1⟩

/-- C1 (counterexample): a row whose `closed_date` and
`resolution_action_updated_date` are both null gets `response_hours = none`
but `within_sla = some false` — pandas `.le` coerces the null to `False`
instead of propagating it. -/
theorem C1_counterexample : ¬ claimC1_stated := by
  intro h
  have hm : cleanOfRaw 24 false false [] ⟨"a", some 0, none, none⟩ ∈
      engineer 24 false false [] [⟨"a", some 0, none, none⟩] := by
    simp [engineer]
  have h2 := (h 24 false false [] _ _ hm).2
  have hw := h2 rfl
  have hv : (cleanOfRaw 24 false false []
      ⟨"a", some 0, none, none⟩).within_sla = some false := rfl
  rw [hv] at hw
  exact Option.noConfusion hw

/-- C1 (amended): for every clean row produced by `engineer`, `within_sla` is
true iff `response_hours` is non-null and at most the SLA threshold; when
`response_hours` is null, `within_sla` is the boolean `False` (coerced by
pandas `.le`), not null. -/
theorem C1_within_sla (sla : ℚ) (tzAware hav : Bool)
    (hol : List (Int × Nat × Nat)) (df : List RawRow) (r : CleanRow)
    (hr : r ∈ engineer sla tzAware hav hol df) :
    (r.within_sla = some true ↔ ∃ v, r.response_hours = some v ∧ v ≤ sla) ∧
    (r.response_hours = none → r.within_sla = some false) := by
  obtain ⟨x, hx, rfl⟩ := List.mem_map.mp hr
  constructor
  · cases hrh : responseHoursOf (x.created_date.getD 0) x with
    | none => simp [cleanOfRaw, pdLe, hrh]
    | some v => simp [cleanOfRaw, pdLe, hrh]
  · intro hnone
    have hn : responseHoursOf (x.created_date.getD 0) x = none := hnone
    simp [cleanOfRaw, pdLe, hn]

/-- C1 (witness): a row created at 0 and closed at 3600 seconds has
`response_hours = 1 ≤ 24`, and `within_sla` comes out `some true`. -/
theorem C1_witness :
    (cleanOfRaw 24 false false [] ⟨"b", some 0, some 3600, none⟩).within_sla
      = some true := by
  have h := C1_within_sla 24 false false [] [⟨"b", some 0, some 3600, none⟩]
    (cleanOfRaw 24 false false [] ⟨"b", some 0, some 3600, none⟩)
    (by simp [engineer])
  refine h.1.mpr ⟨1, ?_, by norm_num⟩
  norm_num [cleanOfRaw, responseHoursOf, responseEnd]

/-- C4: for every clean row, `response_hours` is null iff both the closure
and last-update timestamps are null; otherwise it is exactly
`(response_end - created) / 3600` hours with `response_end` preferring the
closure timestamp, with no clamping of negative values. -/
theorem C4_response_hours (sla : ℚ) (tzAware hav : Bool)
    (hol : List (Int × Nat × Nat)) (x : RawRow) (c : Int)
    (hc : x.created_date = some c) :
    ((cleanOfRaw sla tzAware hav hol x).response_hours = none ↔
      x.closed_date = none ∧ x.resolution_action_updated_date = none) ∧
    ∀ e, responseEnd x = some e →
      (cleanOfRaw sla tzAware hav hol x).response_hours =
        some (((e - c : Int) : ℚ) / 3600) := by
  constructor
  · cases hcl : x.closed_date <;>
      cases hu : x.resolution_action_updated_date <;>
      simp [cleanOfRaw, responseHoursOf, responseEnd, hcl, hu]
  · intro e he
    simp [cleanOfRaw, responseHoursOf, he, hc]

/-- C4 (witness): a row created at 7200 s whose closure is at 0 s yields the
negative, unclamped value `response_hours = -2`. -/
theorem C4_witness :
    (cleanOfRaw 24 false false []
      ⟨"a", some 7200, some 0, none⟩).response_hours = some (-2) := by
  have h := (C4_response_hours 24 false false []
    ⟨"a", some 7200, some 0, none⟩ 7200 rfl).2 0 rfl
  rw [h]
  norm_num

/-- C5: `engineer` converts the creation timestamp to America/New_York from
UTC — a timezone-naive value is interpreted as UTC, a timezone-aware one is
converted directly, landing on the same instant — and derives the calendar
fields from the converted value; the naive input 2024-01-01T00:00:00
(epoch 1704067200) yields local date 2023-12-31, hour 19 and day name
Sunday. -/
theorem C5_timezone (sla : ℚ) (hav : Bool) (hol : List (Int × Nat × Nat))
    (x : RawRow) (c : Int) (hc : x.created_date = some c) :
    ((cleanOfRaw sla false hav hol x).created_local = utcToNewYork c ∧
     (cleanOfRaw sla true hav hol x).created_local = utcToNewYork c) ∧
    (c = 1704067200 →
      (cleanOfRaw sla false hav hol x).date = (2023, 12, 31) ∧
      (cleanOfRaw sla false hav hol x).hour = 19 ∧
      (cleanOfRaw sla false hav hol x).dow_name = "Sunday") := by
  refine ⟨⟨?_, ?_⟩, ?_⟩
  · simp [cleanOfRaw, localizeCreated, hc]
  · simp [cleanOfRaw, localizeCreated, hc]
  · rintro rfl
    refine ⟨?_, ?_, ?_⟩ <;>
      simp only [cleanOfRaw, hc, Option.getD_some] <;> decide

/-- C5 (witness): the concrete naive timestamp 2024-01-01T00:00:00 produces
hour 19 and day name Sunday. -/
theorem C5_witness :
    (cleanOfRaw 24 false false []
      ⟨"k", some 1704067200, none, none⟩).hour = 19 ∧
    (cleanOfRaw 24 false false []
      ⟨"k", some 1704067200, none, none⟩).dow_name = "Sunday" := by
  have h := (C5_timezone 24 false [] ⟨"k", some 1704067200, none, none⟩
    1704067200 rfl).2 rfl
  exact ⟨h.2.1, h.2.2⟩

lemma respNonneg_congr (cols : List String) (rows1 rows2 : List CleanRow)
    (h : rows1.map (fun r => r.response_hours) =
      rows2.map (fun r => r.response_hours)) :
    respNonneg ⟨cols, rows1⟩ = respNonneg ⟨cols, rows2⟩ := by
  induction rows1 generalizing rows2 with
  | nil =>
    cases rows2 with
    | nil => rfl
    | cons b t2 => simp at h
  | cons a t1 ih =>
    cases rows2 with
    | nil => simp at h
    | cons b t2 =>
      simp only [List.map_cons, List.cons.injEq] at h
      obtain ⟨hab, ht⟩ := h
      have htail := ih t2 ht
      simp only [respNonneg, List.all_cons] at htail ⊢
      rw [hab, htail]

lemma respNonneg_pointwise (r : CleanRow) :
    ((match r.response_hours with
      | none => true
      | some v => decide (0 ≤ v)) = true) ↔
      ∀ v, r.response_hours = some v → 0 ≤ v := by
  cases h : r.response_hours <;> simp [h]

/-- C8: the schema guard in `main` passes exactly when the required column
set is present, `unique_key` has no duplicates and every non-null
`response_hours` is nonnegative; when any check fails, no write event is
performed (the previously published dataset is untouched). -/
theorem C8_schema_validation (t : CleanTable) (pa : Bool) :
    ((mainPublish t pa).2 = none ↔
      ((∀ c ∈ expectedCols, c ∈ t.cols) ∧
       (t.rows.map (fun r => r.unique_key)).Nodup ∧
       ∀ r ∈ t.rows, ∀ v, r.response_hours = some v → 0 ≤ v)) ∧
    ((mainPublish t pa).2 ≠ none → (mainPublish t pa).1 = []) := by
  have hmiss : missingCols t = [] ↔ ∀ c ∈ expectedCols, c ∈ t.cols := by
    simp [missingCols, List.filter_eq_nil_iff]
  have hkeys : keysUnique t = true ↔
      (t.rows.map (fun r => r.unique_key)).Nodup := by
    simp [keysUnique]
  have hresp : respNonneg t = true ↔
      ∀ r ∈ t.rows, ∀ v, r.response_hours = some v → 0 ≤ v := by
    simp only [respNonneg, List.all_eq_true]
    exact forall₂_congr (fun r _ => respNonneg_pointwise r)
  by_cases h1 : missingCols t = []
  · by_cases h2 : keysUnique t = true
    · by_cases h3 : respNonneg t = true
      · have hv : mainPublish t pa =
            (.writeClean :: (if pa then [.writePartitioned] else []), none) :=
          by simp [mainPublish, h1, h2, h3]
        rw [hv]
        exact ⟨⟨fun _ => ⟨hmiss.mp h1, hkeys.mp h2, hresp.mp h3⟩,
          fun _ => rfl⟩, fun hc => absurd rfl hc⟩
      · have hv : mainPublish t pa =
            ([], some "negative response_hours found") := by
          simp [mainPublish, h1, h2, h3]
        rw [hv]
        exact ⟨⟨fun hc => absurd hc (by simp),
          fun hc => absurd (hresp.mpr hc.2.2) h3⟩, fun _ => rfl⟩
    · have hv : mainPublish t pa = ([], some "unique_key has duplicates") :=
        by simp [mainPublish, h1, h2]
      rw [hv]
      exact ⟨⟨fun hc => absurd hc (by simp),
        fun hc => absurd (hkeys.mpr hc.2.1) h2⟩, fun _ => rfl⟩
  · have hv : mainPublish t pa = ([], some "Missing columns") := by
      simp [mainPublish, h1]
    rw [hv]
    exact ⟨⟨fun hc => absurd hc (by simp),
      fun hc => absurd (hmiss.mpr hc.1) h1⟩, fun _ => rfl⟩

/-- C8 (witness): a table with a duplicated `unique_key` fails validation
and performs no write, while a well-formed one passes. -/
theorem C8_witness :
    (mainPublish
      ⟨cleanCols ["unique_key", "created_date", "closed_date",
        "resolution_action_updated_date", "borough", "complaint_type",
        "descriptor"],
       engineer 24 false false []
         [⟨"a", some 0, none, none⟩, ⟨"a", some 1, none, none⟩]⟩ true).1
      = [] := by
  have h := C8_schema_validation
    ⟨cleanCols ["unique_key", "created_date", "closed_date",
      "resolution_action_updated_date", "borough", "complaint_type",
      "descriptor"],
     engineer 24 false false []
       [⟨"a", some 0, none, none⟩, ⟨"a", some 1, none, none⟩]⟩ true
  refine h.2 ?_
  intro hnone
  have hdup := (h.1.mp hnone).2.1
  simp [engineer, cleanOfRaw] at hdup

/-- C10: when the holidays package fails to import, exactly one warning is
emitted at import time, every clean row gets `is_holiday = false`, and the
validation/publish outcome is identical to the one with the package present
— no step aborts because of the missing capability. -/
theorem C10_holidays_unavailable (sla : ℚ) (tzA : Bool)
    (hol : List (Int × Nat × Nat)) (df : List RawRow)
    (rawCols : List String) (pa : Bool) :
    importHolidaysModule false = (false, 1) ∧
    (∀ r ∈ engineer sla tzA false hol df, r.is_holiday = false) ∧
    mainPublish ⟨cleanCols rawCols, engineer sla tzA false hol df⟩ pa =
      mainPublish ⟨cleanCols rawCols, engineer sla tzA true hol df⟩ pa := by
  refine ⟨rfl, ?_, ?_⟩
  · intro r hr
    obtain ⟨x, hx, rfl⟩ := List.mem_map.mp hr
    rfl
  · have hk : keysUnique ⟨cleanCols rawCols, engineer sla tzA false hol df⟩ =
        keysUnique ⟨cleanCols rawCols, engineer sla tzA true hol df⟩ := by
      simp only [keysUnique, engineer, List.map_map]
      rfl
    have hrn : respNonneg ⟨cleanCols rawCols,
        engineer sla tzA false hol df⟩ =
        respNonneg ⟨cleanCols rawCols, engineer sla tzA true hol df⟩ := by
      refine respNonneg_congr _ _ _ ?_
      simp only [engineer, List.map_map]
      rfl
    have hm : missingCols ⟨cleanCols rawCols,
        engineer sla tzA false hol df⟩ =
        missingCols ⟨cleanCols rawCols, engineer sla tzA true hol df⟩ := rfl
    simp only [mainPublish, hm, hk, hrn]

/-- C10 (witness): with the holidays capability absent, a row created on a
listed holiday date still gets `is_holiday = false`. -/
theorem C10_witness :
    (cleanOfRaw 24 false false [(2024, 1, 1)]
      ⟨"a", some 1704067200, none, none⟩).is_holiday = false := by
  have h := (C10_holidays_unavailable 24 false [(2024, 1, 1)]
    [⟨"a", some 1704067200, none, none⟩] [] true).2.1
  exact h _ (by simp [engineer])

lemma retryGo_attempts_le {α : Type} (stub : Nat → Except String α) :
    ∀ rem attempt b, (retryGo stub attempt rem b).attempts ≤ rem := by
  intro rem
  induction rem with
  | zero => intro attempt b; simp [retryGo]
  | succ s ih =>
    intro attempt b
    conv_lhs => rw [retryGo]
    cases hstub : stub attempt with
    | ok v => simp
    | error e =>
      by_cases h : s = 0
      · simp [h]
      · have hrec := ih (attempt + 1) (backoffNext b)
        simp only [if_neg h]
        omega

lemma retryGo_all_fail {α : Type} (stub : Nat → Except String α)
    (errF : Nat → String) :
    ∀ rem attempt b,
      (∀ i, attempt ≤ i → i ≤ attempt + rem → stub i = .error (errF i)) →
      retryGo stub attempt (rem + 1) b =
        ⟨some (.error (errF (attempt + rem))), rem + 1, schedFrom b rem,
          rem + 1⟩ := by
  intro rem
  induction rem with
  | zero =>
    intro attempt b hfail
    have hcur : stub attempt = .error (errF attempt) :=
      hfail attempt le_rfl (by omega)
    simp [retryGo, hcur, schedFrom]
  | succ s ih =>
    intro attempt b hfail
    have hcur : stub attempt = .error (errF attempt) :=
      hfail attempt le_rfl (by omega)
    have hrest := ih (attempt + 1) (backoffNext b)
      (fun i h1 h2 => hfail i (by omega) (by omega))
    rw [show attempt + 1 + s = attempt + (s + 1) from by omega] at hrest
    conv_lhs => rw [retryGo]
    simp only [hcur]
    rw [if_neg (Nat.succ_ne_zero s), hrest]
    simp [schedFrom]

lemma retryGo_success {α : Type} (stub : Nat → Except String α) (r : α) :
    ∀ k rem attempt b, k < rem →
      (∀ i, attempt ≤ i → i < attempt + k → ∃ e, stub i = .error e) →
      stub (attempt + k) = .ok r →
      retryGo stub attempt rem b =
        ⟨some (.ok r), k, schedFrom b k, k + 1⟩ := by
  intro k
  induction k with
  | zero =>
    intro rem attempt b hk hfail hok
    obtain ⟨rem', rfl⟩ : ∃ m, rem = m + 1 := ⟨rem - 1, by omega⟩
    rw [Nat.add_zero] at hok
    simp [retryGo, hok, schedFrom]
  | succ s ih =>
    intro rem attempt b hk hfail hok
    obtain ⟨rem', rfl⟩ : ∃ m, rem = m + 1 := ⟨rem - 1, by omega⟩
    obtain ⟨e, he⟩ := hfail attempt le_rfl (by omega)
    have hrem' : rem' ≠ 0 := by omega
    have hrest := ih rem' (attempt + 1) (backoffNext b) (by omega)
      (fun i h1 h2 => hfail i (by omega) (by omega))
      (by rw [show attempt + 1 + s = attempt + (s + 1) from by omega]
          exact hok)
    conv_lhs => rw [retryGo]
    simp only [he]
    rw [if_neg hrem', hrest]
    simp [schedFrom]

lemma schedFrom_min_pow (n : Nat) : ∀ i, schedFrom (min (2 ^ i) 30) n =
    (List.range n).map (fun j => min (2 ^ (i + j)) 30) := by
  induction n with
  | zero => intro i; simp [schedFrom]
  | succ m ih =>
    intro i
    have h2 : 2 ^ (i + 1) = 2 ^ i * 2 := pow_succ 2 i
    have hb : backoffNext (min (2 ^ i) 30) = min (2 ^ (i + 1)) 30 := by
      simp only [backoffNext]
      rw [h2]
      omega
    rw [schedFrom, hb, ih (i + 1), List.range_succ_eq_map]
    simp only [List.map_cons, List.map_map, Nat.add_zero]
    refine congrArg₂ _ rfl ?_
    refine List.map_congr_left ?_
    intro j _
    simp only [Function.comp_apply]
    rw [show i + 1 + j = i + (j + 1) from by omega]

lemma schedFrom_one_eq (n : Nat) : schedFrom 1 n = backoffSchedule n := by
  have h := schedFrom_min_pow n 0
  norm_num at h
  rw [backoffSchedule]
  exact h

/-- C6: `get_with_retry` makes at most `max_retries` attempts; if every
attempt fails it re-raises the last error after exactly `max_retries`
attempts, with `max_retries` warnings and backoff sleeps 1, 2, 4, ... capped
at 30; and if attempt `k+1` succeeds after `k` failures it returns the
successful result having logged exactly `k` warnings. -/
theorem C6_get_with_retry {α : Type} (stub : Nat → Except String α)
    (max_retries k : Nat) (errF : Nat → String) (r : α) :
    (get_with_retry stub max_retries).attempts ≤ max_retries ∧
    (1 ≤ max_retries →
      (∀ i, 1 ≤ i → i ≤ max_retries → stub i = .error (errF i)) →
      get_with_retry stub max_retries =
        ⟨some (.error (errF max_retries)), max_retries,
          backoffSchedule (max_retries - 1), max_retries⟩) ∧
    (k < max_retries →
      (∀ i, 1 ≤ i → i ≤ k → ∃ e, stub i = .error e) →
      stub (k + 1) = .ok r →
      get_with_retry stub max_retries =
        ⟨some (.ok r), k, backoffSchedule k, k + 1⟩) := by
  refine ⟨retryGo_attempts_le stub max_retries 1 1, ?_, ?_⟩
  · intro hm hfail
    obtain ⟨m, rfl⟩ : ∃ m, max_retries = m + 1 := ⟨max_retries - 1, by omega⟩
    have hlem := retryGo_all_fail stub errF m 1 1
      (fun i h1 h2 => hfail i h1 (by omega))
    rw [Nat.add_comm 1 m, schedFrom_one_eq] at hlem
    rw [get_with_retry, hlem]
    simp only [Nat.add_sub_cancel]
  · intro hk hfail hok
    have hlem := retryGo_success stub r k max_retries 1 1 hk
      (fun i h1 h2 => hfail i h1 (by omega))
      (by rw [Nat.add_comm 1 k]; exact hok)
    rw [get_with_retry, hlem, schedFrom_one_eq]

/-- C6 (witness): the spec's two scenarios. A stub failing twice then
succeeding, with `max_retries = 5`, returns the result with exactly 2
warnings; an always-failing stub with `max_retries = 3` re-raises after
exactly 3 attempts with 3 warnings. -/
theorem C6_witness :
    get_with_retry
        (fun i => if i ≤ 2 then .error "boom" else .ok (42 : Nat)) 5 =
      ⟨some (.ok 42), 2, [1, 2], 3⟩ ∧
    get_with_retry (fun _ => (.error "down" : Except String Nat)) 3 =
      ⟨some (.error "down"), 3, [1, 2], 3⟩ := by
  constructor
  · have h := (C6_get_with_retry
      (fun i => if i ≤ 2 then .error "boom" else .ok (42 : Nat))
      5 2 (fun _ => "boom") 42).2.2 (by omega)
      (fun i h1 h2 => ⟨"boom", by simp; omega⟩) (by simp)
    rw [h]
    simp [backoffSchedule, List.range_succ]
  · have h := (C6_get_with_retry (fun _ => (.error "down" : Except String Nat))
      3 0 (fun _ => "down") 0).2.1 (by omega) (fun i h1 h2 => rfl)
    rw [h]
    simp [backoffSchedule, List.range_succ]

lemma ingestLoop_none (T P : Nat) (hP : 1 ≤ P) :
    ∀ w pages, w ≤ T → (ingestLoop T P none w w pages).1 = T ∧
      (ingestLoop T P none w w pages).2.sum = pages.sum + (T - w) := by
  suffices h : ∀ fuel w pages, T - w ≤ fuel → w ≤ T →
      (ingestLoop T P none w w pages).1 = T ∧
      (ingestLoop T P none w w pages).2.sum = pages.sum + (T - w) by
    intro w pages hw
    exact h (T - w) w pages le_rfl hw
  intro fuel
  induction fuel with
  | zero =>
    intro w pages hfuel hwT
    have hw : w = T := by omega
    subst hw
    rw [ingestLoop]
    simp [limTruthy, thisLimitFn]
  | succ n ih =>
    intro w pages hfuel hwT
    by_cases hw : T - w = 0
    · have hw' : w = T := by omega
      subst hw'
      rw [ingestLoop]
      simp [limTruthy, thisLimitFn]
    · rw [ingestLoop]
      have htl : thisLimitFn P none w = P := by simp [thisLimitFn, limTruthy]
      by_cases h3 : min (thisLimitFn P none w) (T - w) < thisLimitFn P none w
      · have hrows : min (thisLimitFn P none w) (T - w) = T - w := by
          rw [htl] at h3 ⊢
          omega
        simp only [limTruthy, Bool.false_eq_true, false_and, if_false, hrows]
        rw [dif_neg hw, dif_pos (hrows ▸ h3)]
        refine ⟨by omega, ?_⟩
        simp [List.sum_append]
      · have hrows : min (thisLimitFn P none w) (T - w) =
            thisLimitFn P none w :=
          le_antisymm (min_le_left _ _) (Nat.not_lt.mp h3)
        have hPle : P ≤ T - w := by
          have := hrows ▸ min_le_right (thisLimitFn P none w) (T - w)
          omega
        simp only [limTruthy, Bool.false_eq_true, false_and, if_false, hrows]
        rw [dif_neg (show ¬ thisLimitFn P none w = 0 from by rw [htl]; omega),
          dif_neg (lt_irrefl (thisLimitFn P none w))]
        have hrec := ih (w + thisLimitFn P none w)
          (pages ++ [thisLimitFn P none w])
          (by rw [htl]; omega) (by rw [htl]; omega)
        refine ⟨hrec.1, ?_⟩
        rw [hrec.2]
        simp only [List.sum_append, List.sum_cons, List.sum_nil, htl]
        omega

lemma ingestLoop_some (T P : Nat) (nl : Int) (hP : 1 ≤ P) (hn : 1 ≤ nl) :
    ∀ w pages, w ≤ min T nl.toNat →
      (ingestLoop T P (some nl) w w pages).1 = min T nl.toNat ∧
      (ingestLoop T P (some nl) w w pages).2.sum =
        pages.sum + (min T nl.toNat - w) := by
  have hTru : limTruthy (some nl) = true := by
    simp only [limTruthy, bne_iff_ne, ne_eq, decide_eq_true_eq]
    omega
  suffices h : ∀ fuel w pages, T - w ≤ fuel → w ≤ min T nl.toNat →
      (ingestLoop T P (some nl) w w pages).1 = min T nl.toNat ∧
      (ingestLoop T P (some nl) w w pages).2.sum =
        pages.sum + (min T nl.toNat - w) by
    intro w pages hw
    exact h (T - w) w pages le_rfl hw
  intro fuel
  induction fuel with
  | zero =>
    intro w pages hfuel hwmin
    rw [ingestLoop]
    simp only [hTru, true_and, limVal]
    rw [show thisLimitFn P (some nl) w = min P (nl - (w : Int)).toNat from
      by simp [thisLimitFn, hTru, limVal]]
    by_cases hc1 : nl - (w : Int) ≤ 0
    · rw [if_pos hc1]
      exact ⟨by show w = min T nl.toNat; omega,
        by show pages.sum = pages.sum + (min T nl.toNat - w); omega⟩
    · rw [if_neg hc1]
      have h2 : min (min P (nl - (w : Int)).toNat) (T - w) = 0 := by omega
      rw [dif_pos h2]
      exact ⟨by show w = min T nl.toNat; omega,
        by show pages.sum = pages.sum + (min T nl.toNat - w); omega⟩
  | succ n ih =>
    intro w pages hfuel hwmin
    rw [ingestLoop]
    simp only [hTru, true_and, limVal]
    rw [show thisLimitFn P (some nl) w = min P (nl - (w : Int)).toNat from
      by simp [thisLimitFn, hTru, limVal]]
    by_cases hc1 : nl - (w : Int) ≤ 0
    · rw [if_pos hc1]
      exact ⟨by show w = min T nl.toNat; omega,
        by show pages.sum = pages.sum + (min T nl.toNat - w); omega⟩
    · rw [if_neg hc1]
      by_cases h2 : min (min P (nl - (w : Int)).toNat) (T - w) = 0
      · rw [dif_pos h2]
        exact ⟨by show w = min T nl.toNat; omega,
          by show pages.sum = pages.sum + (min T nl.toNat - w); omega⟩
      · rw [dif_neg h2]
        by_cases h3 : min (min P (nl - (w : Int)).toNat) (T - w) <
            min P (nl - (w : Int)).toNat
        · rw [dif_pos h3]
          constructor
          · show w + min (min P (nl - (w : Int)).toNat) (T - w) =
              min T nl.toNat
            omega
          · show (pages ++
                [min (min P (nl - (w : Int)).toNat) (T - w)]).sum =
              pages.sum + (min T nl.toNat - w)
            rw [List.sum_append]
            simp only [List.sum_cons, List.sum_nil]
            omega
        · rw [dif_neg h3]
          by_cases hc4 : nl ≤ ((w + min P (nl - (w : Int)).toNat : Nat) : Int)
          · rw [if_pos hc4]
            constructor
            · show w + min P (nl - (w : Int)).toNat = min T nl.toNat
              omega
            · show (pages ++ [min P (nl - (w : Int)).toNat]).sum =
                pages.sum + (min T nl.toNat - w)
              rw [List.sum_append]
              simp only [List.sum_cons, List.sum_nil]
              omega
          · rw [if_neg hc4]
            have hrec := ih (w + min P (nl - (w : Int)).toNat)
              (pages ++ [min P (nl - (w : Int)).toNat])
              (by omega) (by omega)
            refine ⟨?_, ?_⟩
            · exact hrec.1
            · rw [hrec.2, List.sum_append]
              simp only [List.sum_cons, List.sum_nil]
              omega

lemma ingestLoop_untruthy (T P : Nat) (L : Option Int)
    (hL : limTruthy L = false) :
    ∀ offset written pages, ingestLoop T P L offset written pages =
      ingestLoop T P none offset written pages := by
  suffices h : ∀ fuel offset written pages, T - offset ≤ fuel →
      ingestLoop T P L offset written pages =
        ingestLoop T P none offset written pages by
    intro o w p
    exact h (T - o) o w p le_rfl
  intro fuel
  induction fuel with
  | zero =>
    intro offset written pages hfuel
    conv_lhs => rw [ingestLoop]
    conv_rhs => rw [ingestLoop]
    have hnone : limTruthy none = false := rfl
    have htl : thisLimitFn P L written = P := by simp [thisLimitFn, hL]
    have htn : thisLimitFn P none written = P := by
      simp [thisLimitFn, hnone]
    simp only [hL, hnone, Bool.false_eq_true, false_and, if_false, htl, htn]
    have h0 : T - offset = 0 := by omega
    rw [h0]
    simp
  | succ n ih =>
    intro offset written pages hfuel
    conv_lhs => rw [ingestLoop]
    conv_rhs => rw [ingestLoop]
    have hnone : limTruthy none = false := rfl
    have htl : thisLimitFn P L written = P := by simp [thisLimitFn, hL]
    have htn : thisLimitFn P none written = P := by
      simp [thisLimitFn, hnone]
    simp only [hL, hnone, Bool.false_eq_true, false_and, if_false, htl, htn]
    by_cases h2 : min P (T - offset) = 0
    · rw [dif_pos h2, dif_pos h2]
    · rw [dif_neg h2, dif_neg h2]
      by_cases h3 : min P (T - offset) < P
      · rw [dif_pos h3, dif_pos h3]
      · rw [dif_neg h3, dif_neg h3]
        exact ih (offset + P) (written + P) (pages ++ [P]) (by omega)

/-- C7: for every consistent remote dataset of `T` matching rows and positive
page size, the pagination loop (a terminating function) writes pages whose
row counts sum to its total, and that total is `min T max_rows` when a
positive row limit is set and `T` when none is set. -/
theorem C7_ingest_totals (T P : Nat) (L : Option Int) (hP : 1 ≤ P)
    (hL : ∀ nl, L = some nl → 1 ≤ nl) :
    (mainIngest T P L).written = expectedTotal T L ∧
    (mainIngest T P L).pages.sum = (mainIngest T P L).written := by
  cases L with
  | none =>
    have h := ingestLoop_none T P hP 0 [] (by omega)
    constructor
    · exact h.1
    · show (ingestLoop T P none 0 0 []).2.sum =
        (ingestLoop T P none 0 0 []).1
      rw [h.1, h.2]
      simp
  | some nl =>
    have hn := hL nl rfl
    have h := ingestLoop_some T P nl hP hn 0 [] (by omega)
    constructor
    · exact h.1
    · show (ingestLoop T P (some nl) 0 0 []).2.sum =
        (ingestLoop T P (some nl) 0 0 []).1
      rw [h.1, h.2]
      simp

/-- C7 (witness): 10 matching rows, page size 3 and limit 7 write pages
summing to `min 10 7 = 7` rows. -/
theorem C7_witness :
    (mainIngest 10 3 (some 7)).written = 7 ∧
    (mainIngest 10 3 (some 7)).pages.sum = (mainIngest 10 3 (some 7)).written
    := by
  have h := C7_ingest_totals 10 3 (some 7) (by omega)
    (by intro nl hnl; injection hnl with hh; omega)
  refine ⟨?_, h.2⟩
  rw [h.1]
  rfl

/-- C9: at the ingestion CLI, `--limit 0` behaves exactly as if no limit were
given — the count query is still issued and no row cap is applied — because
`args.limit` is tested for Python truthiness, and 0 is falsy. -/
theorem C9_limit_zero (T P : Nat) :
    mainIngest T P (some 0) = mainIngest T P none ∧
    (mainIngest T P (some 0)).countQueried = true := by
  have h := ingestLoop_untruthy T P (some 0) (by simp [limTruthy]) 0 0 []
  constructor
  · show (⟨!(limTruthy (some 0)), (ingestLoop T P (some 0) 0 0 []).1,
      (ingestLoop T P (some 0) 0 0 []).2⟩ : IngestResult) =
      ⟨!(limTruthy none), (ingestLoop T P none 0 0 []).1,
        (ingestLoop T P none 0 0 []).2⟩
    rw [h]
    rfl
  · rfl

end NYC311
